import Mathlib

/-!
Shallow embedding of `matsciml/datasets/transforms/representations/graphs.py`
(`PointCloudToGraphTransform`): point-cloud samples are string-keyed
dictionaries of tensor-like values, and the transform derives a cutoff-radius
neighbour graph for one of two graph backends (DGL / PyG).

Tensors are modelled with an explicit shape list plus row-major rational data,
so rank (`ndim`) and per-dimension sizes (`size(i)`) behave as in torch.
Python exceptions are modelled with `Except String`; dictionary mutation is
modelled by explicit state passing.
-/

namespace MatSciML

/-- A value stored in a data sample: a torch tensor (shape, row-major data),
a numpy array, a 1-D boolean mask tensor, a DGL graph (node count, directed
edge list, node-attribute store, edge-attribute store), or a PyG `Data`
object (edge-index shape, edge-index rows, attribute store). -/
inductive Val where
  | ten : List Nat → List ℚ → Val
  | npA : List Nat → List ℚ → Val
  | bm : List Bool → Val
  | gDGL : Nat → List (Nat × Nat) → List (String × Val) → List (String × Val) → Val
  | gPyG : List Nat → List (List Nat) → List (String × Val) → Val

/-- A data sample: an insertion-ordered dictionary from string keys to values. -/
abbrev DataDict := List (String × Val)

/-- Dictionary lookup, python `data[key]` / `data.get(key)`. -/
def getV (d : DataDict) (k : String) : Option Val :=
  (d.find? (fun p => p.1 = k)).map (fun p => p.2)

/-- Python `key in data`. -/
def hasK (d : DataDict) (k : String) : Bool :=
  (getV d k).isSome

/-- Lookup with a junk default, used only after a `hasK` check. -/
def getVD (d : DataDict) (k : String) : Val :=
  (getV d k).getD (Val.ten [] [])

/-- Python `del data[key]` (total: deleting a missing key is a no-op,
matching the `try path del path except KeyError path pass` uses). -/
def delV (d : DataDict) (k : String) : DataDict :=
  d.filter (fun p => p.1 ≠ k)

/-- Python `data[key] = v`. -/
def setV (d : DataDict) (k : String) (v : Val) : DataDict :=
  delV d k ++ [(k, v)]

theorem getV_cons (p : String × Val) (d : DataDict) (k : String) :
    getV (p :: d) k = if p.1 = k then some p.2 else getV d k := by
  by_cases hp : p.1 = k <;> simp [getV, List.find?, hp]

theorem getV_append (d₁ d₂ : DataDict) (k : String) :
    getV (d₁ ++ d₂) k = (getV d₁ k <|> getV d₂ k) := by
  induction d₁ with
  | nil => simp [getV]
  | cons p d ih =>
      by_cases hp : p.1 = k <;>
        simp [List.cons_append, getV_cons, hp, ih]

theorem getV_delV (d : DataDict) (k k' : String) :
    getV (delV d k) k' = if k' = k then none else getV d k' := by
  induction d with
  | nil => by_cases h : k' = k <;> simp [getV, delV, h]
  | cons p d ih =>
      by_cases hp : p.1 = k
      · have step : delV (p :: d) k = delV d k := by
          simp [delV, List.filter_cons, hp]
        rw [step, ih, getV_cons]
        by_cases h : k' = k
        · simp [h]
        · have : ¬ p.1 = k' := fun hc => h (by rw [← hc, hp])
          simp [h, this]
      · have step : delV (p :: d) k = p :: delV d k := by
          simp [delV, List.filter_cons, hp]
        rw [step, getV_cons, getV_cons, ih]
        by_cases hq : p.1 = k'
        · have : ¬ k' = k := fun hc => hp (by rw [hq, hc])
          simp [hq, this]
        · simp [hq]

theorem getV_setV (d : DataDict) (k k' : String) (v : Val) :
    getV (setV d k v) k' = if k' = k then some v else getV d k' := by
  rw [setV, getV_append, getV_delV]
  by_cases h : k' = k
  · simp [getV_cons, getV, h]
  · have h2 : ¬ k = k' := fun hc => h hc.symm
    simp [getV_cons, getV, h, h2]

/-- Structural helper for `chunkRows`, recursing on a fuel bound so that
the definition reduces inside the kernel. -/
def chunkRowsGo (m : Nat) : Nat → List ℚ → List (List ℚ)
  | 0, _ => []
  | fuel + 1, d =>
      if m = 0 ∨ d = [] then [] else
        d.take m :: chunkRowsGo m fuel (d.drop m)

/-- Split a flat row-major buffer into rows of width `m`
(the 2-D reading of a torch tensor). -/
def chunkRows (m : Nat) (d : List ℚ) : List (List ℚ) :=
  chunkRowsGo m d.length d

theorem chunkRowsGo_congr (m : Nat) (f1 f2 : Nat) (d : List ℚ)
    (h1 : d.length ≤ f1) (h2 : d.length ≤ f2) :
    chunkRowsGo m f1 d = chunkRowsGo m f2 d := by
  induction f1 generalizing f2 d with
  | zero =>
      have hd : d = [] := List.length_eq_zero.mp (by omega)
      subst hd
      cases f2 <;> simp [chunkRowsGo]
  | succ f1 ih =>
      cases f2 with
      | zero =>
          have hd : d = [] := List.length_eq_zero.mp (by omega)
          subst hd
          simp [chunkRowsGo]
      | succ f2 =>
          by_cases hc : m = 0 ∨ d = []
          · simp [chunkRowsGo, hc]
          · push_neg at hc
            have hm : 0 < m := Nat.pos_of_ne_zero hc.1
            have hd : 0 < d.length := List.length_pos.mpr hc.2
            rw [chunkRowsGo, chunkRowsGo,
              if_neg (by push_neg; exact hc), if_neg (by push_neg; exact hc)]
            have hdrop : (d.drop m).length ≤ f1 := by
              simp only [List.length_drop]; omega
            have hdrop2 : (d.drop m).length ≤ f2 := by
              simp only [List.length_drop]; omega
            rw [ih f2 (d.drop m) hdrop hdrop2]

/-- The unfolding equation of `chunkRows`. -/
theorem chunkRows_eq (m : Nat) (d : List ℚ) :
    chunkRows m d =
      if m = 0 ∨ d = [] then [] else
        d.take m :: chunkRows m (d.drop m) := by
  by_cases hc : m = 0 ∨ d = []
  · rw [if_pos hc]
    cases d with
    | nil => simp [chunkRows, chunkRowsGo]
    | cons x xs =>
        have hm : m = 0 := by
          rcases hc with h | h
          · exact h
          · simp at h
        subst hm
        simp [chunkRows, chunkRowsGo]
  · push_neg at hc
    have hm : 0 < m := Nat.pos_of_ne_zero hc.1
    cases d with
    | nil => exact absurd rfl hc.2
    | cons x xs =>
        rw [if_neg (by push_neg; exact hc)]
        show chunkRowsGo m (xs.length + 1) (x :: xs) = _
        rw [chunkRowsGo, if_neg (by push_neg; exact hc)]
        have : chunkRowsGo m xs.length ((x :: xs).drop m) =
            chunkRows m ((x :: xs).drop m) := by
          apply chunkRowsGo_congr
          · simp only [List.length_drop]
            simp only [List.length_cons]
            omega
          · exact le_refl _
        rw [this]

theorem chunkRows_nil (m : Nat) : chunkRows m [] = [] := by
  rw [chunkRows_eq]; simp

theorem chunkRows_flatten (m : Nat) (hm : 0 < m) (l : List (List ℚ))
    (h : ∀ r ∈ l, r.length = m) : chunkRows m l.flatten = l := by
  induction l with
  | nil => simpa using chunkRows_nil m
  | cons a l ih =>
      have ha : a.length = m := h a (by simp)
      have hne : a ++ l.flatten ≠ [] := by
        intro hc
        have : a = [] := by
          cases a with
          | nil => rfl
          | cons x xs => simp at hc
        rw [this] at ha
        simp at ha
        omega
      rw [List.flatten_cons, chunkRows_eq, if_neg (by push_neg; exact ⟨by omega, hne⟩)]
      rw [← ha, List.take_left, List.drop_left, ha]
      exact congrArg (a :: ·) (ih (fun r hr => h r (by simp [hr])))

/-- Boolean-mask indexing `xs[mask]` over the leading dimension. -/
def keepTrue {α : Type} (m : List Bool) (xs : List α) : List α :=
  (List.zip m xs).filterMap (fun p => if p.1 then some p.2 else none)

theorem keepTrue_length {α : Type} (m : List Bool) (xs : List α)
    (h : m.length = xs.length) : (keepTrue m xs).length = m.count true := by
  induction m generalizing xs with
  | nil => simp [keepTrue]
  | cons b m ih =>
      cases xs with
      | nil => simp at h
      | cons x xs =>
          have h' : m.length = xs.length := by simpa using h
          cases b
          · simpa [keepTrue, List.zip_cons_cons, List.filterMap_cons,
              List.count_cons] using ih xs h'
          · simpa [keepTrue, List.zip_cons_cons, List.filterMap_cons,
              List.count_cons] using ih xs h'

/-- Entry `(r, c)` of a matrix stored as a list of rows (0 outside bounds). -/
def ent (rows : List (List ℚ)) (r c : Nat) : ℚ :=
  (rows.getD r []).getD c 0

/-- Model of `torch.tril`: keep entries on or below the main diagonal, zero the rest. -/
def tril (rows : List (List ℚ)) : List (List ℚ) :=
  (List.range rows.length).map (fun r =>
    (List.range ((rows.getD r []).length)).map (fun c =>
      if c ≤ r then ent rows r c else 0))

/-- Model of `torch.argwhere((0.0 < lower_tri) * (lower_tri < cutoff)).tolist()`:
row-major list of index pairs whose entry is strictly between 0 and the
cutoff. -/
def argwherePos (cutoff : ℚ) (rows : List (List ℚ)) : List (Nat × Nat) :=
  ((List.range rows.length).map (fun r =>
    (List.range ((rows.getD r []).length)).filterMap (fun c =>
      if 0 < ent rows r c ∧ ent rows r c < cutoff then some (r, c) else none))).flatten

/-- Model of `torch.from_numpy` conversion applied when the input is a numpy array. -/
def fromNumpy : Val → Val
  | .npA s d => .ten s d
  | v => v

/-- Model of `PointCloudToGraphTransform.edges_from_dist`: convert a numpy distance
matrix to a tensor if needed, take the lower triangle, mask entries strictly
between 0 and the cutoff, and return the list of index pairs. -/
def edges_from_dist (dist_mat : Val) (cutoff : ℚ) : Except String (List (Nat × Nat)) :=
  match fromNumpy dist_mat with
  | .ten [_, m] d => .ok (argwherePos cutoff (tril (chunkRows m d)))
  | _ => .error "tril expects a 2D tensor"

theorem getD_range_map {β : Type} (N r : Nat) (f : Nat → β) (d : β) (hr : r < N) :
    ((List.range N).map f).getD r d = f r := by
  have hlen : r < ((List.range N).map f).length := by simpa using hr
  rw [List.getD_eq_getElem _ _ hlen]
  simp

theorem length_tril (rows : List (List ℚ)) : (tril rows).length = rows.length := by
  simp [tril]

theorem getD_tril (rows : List (List ℚ)) (r : Nat) (hr : r < rows.length) :
    (tril rows).getD r [] =
      (List.range ((rows.getD r []).length)).map (fun c =>
        if c ≤ r then ent rows r c else 0) := by
  rw [tril, getD_range_map _ _ _ _ hr]

theorem ent_tril (rows : List (List ℚ)) (r c : Nat) (hr : r < rows.length)
    (hc : c < (rows.getD r []).length) :
    ent (tril rows) r c = if c ≤ r then ent rows r c else 0 := by
  rw [ent, getD_tril rows r hr, getD_range_map _ _ _ _ hc]

theorem mem_argwherePos (cutoff : ℚ) (rows : List (List ℚ)) (r c : Nat) :
    (r, c) ∈ argwherePos cutoff rows ↔
      r < rows.length ∧ c < (rows.getD r []).length ∧
        0 < ent rows r c ∧ ent rows r c < cutoff := by
  simp only [argwherePos, List.mem_flatten, List.mem_map, List.mem_range]
  constructor
  · rintro ⟨L, ⟨r', hr', rfl⟩, hmem⟩
    rw [List.mem_filterMap] at hmem
    obtain ⟨c', hc', hif⟩ := hmem
    rw [List.mem_range] at hc'
    by_cases hP : 0 < ent rows r' c' ∧ ent rows r' c' < cutoff
    · rw [if_pos hP] at hif
      injection hif with hpair
      injection hpair with h1 h2
      subst h1; subst h2
      exact ⟨hr', hc', hP.1, hP.2⟩
    · rw [if_neg hP] at hif
      exact absurd hif (by simp)
  · rintro ⟨hr, hc, h0, hcut⟩
    refine ⟨_, ⟨r, hr, rfl⟩, ?_⟩
    rw [List.mem_filterMap]
    exact ⟨c, List.mem_range.mpr hc, if_pos ⟨h0, hcut⟩⟩

theorem getD_mem_of_lt {α : Type} (l : List α) (r : Nat) (d : α)
    (hr : r < l.length) : l.getD r d ∈ l := by
  rw [List.getD_eq_getElem _ _ hr]
  exact List.getElem_mem hr

/-- C1: for an `n × n` distance matrix with zero diagonal,
`edges_from_dist` returns exactly the index pairs `(r, c)` of the lower
triangle whose entry is strictly between 0 and the cutoff; hence an entry
equal to 0 or to the cutoff yields no edge, no self-loop is returned, and
at most one directed edge is produced per unordered pair. -/
theorem edges_from_dist_lower_tri (n : Nat) (rows : List (List ℚ)) (cutoff : ℚ)
    (hn : rows.length = n) (hrow : ∀ row ∈ rows, row.length = n)
    (hdiag : ∀ i, i < n → ent rows i i = 0) :
    ∃ es, edges_from_dist (Val.ten [n, n] rows.flatten) cutoff = Except.ok es ∧
      (∀ r c, (r, c) ∈ es ↔
        c ≤ r ∧ r < n ∧ 0 < ent rows r c ∧ ent rows r c < cutoff) ∧
      (∀ r, (r, r) ∉ es) ∧
      (∀ r c, (r, c) ∈ es → (c, r) ∉ es) := by
  have hchunk : chunkRows n rows.flatten = rows := by
    rcases Nat.eq_zero_or_pos n with hz | hpos
    · subst hz
      have : rows = [] := List.length_eq_zero.mp hn
      subst this
      simpa using chunkRows_nil 0
    · exact chunkRows_flatten n hpos rows hrow
  refine ⟨argwherePos cutoff (tril rows), ?_, ?_, ?_, ?_⟩
  · simp [edges_from_dist, fromNumpy, hchunk]
  · intro r c
    rw [mem_argwherePos]
    constructor
    · rintro ⟨hr, hc, h0, hcut⟩
      rw [length_tril] at hr
      have hrn : r < n := hn ▸ hr
      have hrowlen : ((tril rows).getD r []).length = (rows.getD r []).length := by
        rw [getD_tril rows r hr]
        simp
      rw [hrowlen] at hc
      rw [ent_tril rows r c hr hc] at h0 hcut
      by_cases hle : c ≤ r
      · rw [if_pos hle] at h0 hcut
        exact ⟨hle, hrn, h0, hcut⟩
      · rw [if_neg hle] at h0
        exact absurd h0 (by norm_num)
    · rintro ⟨hle, hrn, h0, hcut⟩
      have hr : r < rows.length := hn ▸ hrn
      have hc : c < (rows.getD r []).length := by
        have := hrow (rows.getD r []) (getD_mem_of_lt rows r [] hr)
        omega
      have hrowlen : ((tril rows).getD r []).length = (rows.getD r []).length := by
        rw [getD_tril rows r hr]
        simp
      refine ⟨by rwa [length_tril, hn], by rwa [hrowlen], ?_, ?_⟩
      · rwa [ent_tril rows r c hr hc, if_pos hle]
      · rwa [ent_tril rows r c hr hc, if_pos hle]
  · intro r hmem
    rw [mem_argwherePos] at hmem
    obtain ⟨hr, hc, h0, _⟩ := hmem
    rw [length_tril] at hr
    have hrowlen : ((tril rows).getD r []).length = (rows.getD r []).length := by
      rw [getD_tril rows r hr]
      simp
    rw [hrowlen] at hc
    rw [ent_tril rows r r hr hc, if_pos (le_refl r)] at h0
    have := hdiag r (hn ▸ hr)
    rw [this] at h0
    exact absurd h0 (by norm_num)
  · intro r c hrc hcr
    rw [mem_argwherePos] at hrc hcr
    obtain ⟨hr1, hc1, h01, _⟩ := hrc
    obtain ⟨hr2, hc2, h02, _⟩ := hcr
    rw [length_tril] at hr1 hr2
    have hrowlen1 : ((tril rows).getD r []).length = (rows.getD r []).length := by
      rw [getD_tril rows r hr1]; simp
    have hrowlen2 : ((tril rows).getD c []).length = (rows.getD c []).length := by
      rw [getD_tril rows c hr2]; simp
    rw [hrowlen1] at hc1
    rw [hrowlen2] at hc2
    rw [ent_tril rows r c hr1 hc1] at h01
    rw [ent_tril rows c r hr2 hc2] at h02
    by_cases hle1 : c ≤ r
    · by_cases hle2 : r ≤ c
      · have : r = c := Nat.le_antisymm hle2 hle1
        subst this
        rw [if_pos (le_refl r)] at h01
        have := hdiag r (hn ▸ hr1)
        rw [this] at h01
        exact absurd h01 (by norm_num)
      · rw [if_neg hle2] at h02
        exact absurd h02 (by norm_num)
    · rw [if_neg hle1] at h01
      exact absurd h01 (by norm_num)

/-- Witness for C1 at the concrete 2 × 2 distance matrix
`[[0, 1], [1, 0]]` with cutoff 5. -/
theorem edges_from_dist_lower_tri_witness :
    ∃ es, edges_from_dist (Val.ten [2, 2]
        ([[0, 1], [1, 0]] : List (List ℚ)).flatten) 5 = Except.ok es ∧
      (∀ r c, (r, c) ∈ es ↔
        c ≤ r ∧ r < 2 ∧ 0 < ent [[0, 1], [1, 0]] r c ∧
          ent [[0, 1], [1, 0]] r c < 5) ∧
      (∀ r, (r, r) ∉ es) ∧
      (∀ r c, (r, c) ∈ es → (c, r) ∉ es) :=
  edges_from_dist_lower_tri 2 [[0, 1], [1, 0]] 5 (by decide)
    (by decide) (by decide)

/-- Boolean-mask tensor indexing `t[mask]` over the leading dimension, for
1-D and 2-D tensors (torch raises when the mask length does not match the
leading dimension, and `_apply_mask` only ever indexes tensors). -/
def maskSelect : Val → List Bool → Except String Val
  | .ten [n] xs, m =>
      if m.length = n then
        .ok (.ten [(keepTrue m xs).length] (keepTrue m xs))
      else .error "IndexError: mask shape mismatch"
  | .ten [n, c] xs, m =>
      if m.length = n then
        let kept := keepTrue m (chunkRows c xs)
        .ok (.ten [kept.length, c] kept.flatten)
      else .error "IndexError: mask shape mismatch"
  | _, _ => .error "IndexError: unsupported mask target"

/-- The final line of `_apply_mask`: index both the labels and the positions
with the same resolved mask and return the pair. -/
def maskPair (atomic_numbers pos : Val) (m : List Bool) : Except String (Val × Val) :=
  match maskSelect atomic_numbers m with
  | .error e => .error e
  | .ok a =>
      match maskSelect pos m with
      | .error e => .error e
      | .ok p => .ok (a, p)

/-- Model of `PointCloudToGraphTransform._apply_mask`: use the sample's `src_mask`
as the mask when that key is present, otherwise the elementwise test
`atomic_numbers > 0.0`; then index both tensors with the mask. -/
def _apply_mask (atomic_numbers pos : Val) (data : DataDict) : Except String (Val × Val) :=
  match getV data "src_mask" with
  | some (.bm m) => maskPair atomic_numbers pos m
  | some _ => .error "TypeError: src_mask is not a boolean mask"
  | none =>
      match atomic_numbers with
      | .ten [_] xs => maskPair atomic_numbers pos (xs.map (fun x => decide (0 < x)))
      | _ => .error "TypeError: atomic_numbers is not a 1D tensor"

/-- Leading dimension of a tensor value (`len(t)` / `t.size(0)`). -/
def dim0 : Val → Option Nat
  | .ten (k :: _) _ => some k
  | .bm m => some m.length
  | _ => none

/-- Reading of a 3-D tensor buffer as nested slices. -/
def chunk3 (b f : Nat) (d : List ℚ) : List (List (List ℚ)) :=
  (chunkRows (b * f) d).map (chunkRows f)

/-- Pointwise sum of two feature vectors (shorter one padded). -/
def addVec : List ℚ → List ℚ → List ℚ
  | [], ys => ys
  | x :: xs, [] => x :: xs
  | x :: xs, y :: ys => (x + y) :: addVec xs ys

/-- Index of the first maximal coordinate (one-hot decode). -/
def argmaxVec (xs : List ℚ) : Nat :=
  (xs.enum.foldl (fun best p => if best.2 < p.2 then p else best) (0, xs.headD 0)).1

/-- Species label summarising one slice of the pairwise feature block. -/
def featLabel (vecs : List (List ℚ)) : ℚ :=
  (argmaxVec (vecs.foldl addVec []) : ℚ)

/-- Modelled from the spec: `retrieve_pointcloud_node_types` is imported from
`matsciml.datasets.utils`, which is not among the provided sources. The spec
says only that it derives source and destination species labels from the
pairwise `pc_features` block; we model one label per first-dimension slice
(source atoms) and one per second-dimension slice (destination atoms), each
decoded from the summed feature vectors of its slice. -/
def retrieve_pointcloud_node_types (f : List (List (List ℚ))) :
    List ℚ × List ℚ :=
  (f.map featLabel,
    (List.range (f.headD []).length).map
      (fun j => featLabel (f.map (fun row => row.getD j []))))

/-- Model of `PointCloudToGraphTransform.get_atom_types`: return `atomic_numbers`
directly when present; otherwise infer source/destination types from
`pc_features`, assert the source-label count matches the position count and
return the source labels; otherwise raise a `KeyError`. -/
def get_atom_types (data : DataDict) : Except String Val :=
  if hasK data "atomic_numbers" then
    .ok (getVD data "atomic_numbers")
  else if hasK data "pc_features" then
    match getV data "pc_features" with
    | some (.ten [_, b, f] d) =>
        match retrieve_pointcloud_node_types (chunk3 b f d) with
        | (src_types, _dst_types) =>
            match getV data "pos" with
            | some (.ten (p :: _) _) =>
                if src_types.length = p then
                  .ok (.ten [src_types.length] src_types)
                else .error "Number of source nodes != number of atom positions!"
            | some _ => .error "TypeError: pos has no leading dimension"
            | none => .error "KeyError: pos"
    | _ => .error "TypeError: pc_features is not a 3D tensor"
  else
    .error "KeyError: no suitable atom types to read from; expect either atomic_numbers or pc_features in the data sample"

/-- Model of `PointCloudToGraphTransform.node_distances`, parametrised by the pairwise
distance kernel `dk`: the code computes `torch.cdist(coords, coords, p=2)`
and casts the result `.to(torch.float16)`; that floating-point kernel is
abstracted as `dk` over coordinate rows. The function asserts the
coordinates are a 2-D tensor whose last dimension is 3, then returns the
dense `n × n` matrix of kernel values over all row pairs. -/
def node_distances (dk : List ℚ → List ℚ → ℚ) (coords : Val) : Except String Val :=
  match coords with
  | .ten [n, m] d =>
      if m = 3 then
        .ok (.ten [n, n]
          (((chunkRows m d).map (fun a => (chunkRows m d).map (fun b => dk a b))).flatten))
      else .error "Expected XYZ coordinates."
  | .ten _ _ => .error "Expected atom coordinates to be 2D tensor."
  | _ => .error "TypeError: coords is not a tensor"

/-- Model of `dgl.graph(adj_list, num_nodes=num_nodes)`: a fresh DGL graph with the
given directed edges and node count and empty attribute stores. -/
def dgl_graph (adj_list : List (Nat × Nat)) (num_nodes : Nat) : Val :=
  .gDGL num_nodes adj_list [] []

/-- Model of the store effect of `graph.ndata[key] = v` (a no-op on non-DGL
values, which the code never hits). This total function models only the
assignment's store; the DGL library additionally validates that the value's
leading dimension equals the node count and raises a `DGLError` otherwise,
so this view is faithful exactly where the lengths match. The validated
counterpart is `ndata_set_validated` below, which matters when an unmasked
tensor is assigned onto a masked-size graph. -/
def setNdata (g : Val) (k : String) (v : Val) : Val :=
  match g with
  | .gDGL n es nd ed => .gDGL n es (setV nd k v) ed
  | g => g

/-- Model of the store effect of `graph.edata[key] = v`; like `setNdata`
this elides the DGL length validation (against the edge count), whose
validated counterpart is `edata_set_validated` below. -/
def setEdata (g : Val) (k : String) (v : Val) : Val :=
  match g with
  | .gDGL n es nd ed => .gDGL n es nd (setV ed k v)
  | g => g

/-- Model of `setattr(graph, key, v)` on a PyG `Data` object. -/
def setPAttr (g : Val) (k : String) (v : Val) : Val :=
  match g with
  | .gPyG s rs ats => .gPyG s rs (setV ats k v)
  | g => g

/-- The symmetric simple closure of a directed edge list: both directions of
every edge, without duplicates. -/
def symEdges (es : List (Nat × Nat)) : List (Nat × Nat) :=
  (es ++ es.map (fun e => (e.2, e.1))).dedup

/-- Model of `dgl.to_bidirected(g, copy_ndata=True)`: a graph with the symmetric
simple closure of the edges; node data is copied, edge data is dropped. -/
def to_bidirected : Val → Except String Val
  | .gDGL n es nd _ => .ok (.gDGL n (symEdges es) nd [])
  | _ => .error "TypeError: to_bidirected expects a DGLGraph"

/-- An integer tensor as built by `torch.LongTensor`: shape plus rows. -/
structure LTen where
  shape : List Nat
  rows : List (List Nat)

/-- Model of `torch.LongTensor(adj_list)`: an empty python list yields a 1-D empty
tensor of shape `[0]`; a list of E pairs yields an `E × 2` tensor. -/
def longTensor (adj : List (Nat × Nat)) : LTen :=
  if adj.isEmpty then ⟨[0], []⟩
  else ⟨[adj.length, 2], adj.map (fun e => [e.1, e.2])⟩

/-- Model of `t.size(i)`: raises an `IndexError` when dimension `i` does not exist. -/
def LTen.size (t : LTen) (i : Nat) : Except String Nat :=
  match t.shape.get? i with
  | some n => .ok n
  | none => .error "IndexError: Dimension out of range"

/-- Model of `t.T.contiguous()` on a 2-D tensor: reversed shape, columns as rows. -/
def LTen.transposeT (t : LTen) : LTen :=
  ⟨t.shape.reverse,
    (List.range (t.shape.getD 1 0)).map (fun c => t.rows.map (fun r => r.getD c 0))⟩

/-- Constructor-time configuration of `PointCloudToGraphTransform`. -/
structure Cfg where
  backend : String
  cutoff_dist : ℚ
  node_keys : List String
  edge_keys : Option (List String)

/-- The non-fatal warning emitted when a configured attribute key is missing
from the sample (`warn(...)`; the source interpolates the key and the sample
keys into the message). -/
def missingMsg (key : String) : String :=
  "Expected data " ++ key ++ " but was not found in data sample"

/-- One iteration of the attribute-copy loop: `graph.attr[key] = data[key]`
guarded by `try ... except KeyError`, which emits a warning and skips. -/
def copyStep (assign : Val → String → Val → Val) (data : DataDict)
    (acc : Val × List String) (key : String) : Val × List String :=
  match getV data key with
  | some v => (assign acc.1 key v, acc.2)
  | none => (acc.1, acc.2 ++ [missingMsg key])

/-- The common copy loop of `_copy_node_keys_dgl` / `_copy_edge_keys_dgl` /
`_copy_node_keys_pyg` / `_copy_edge_keys_pyg`: for each configured key, copy
the sample value onto the graph with `assign`; a missing key emits a warning
and is skipped. Returns the updated graph and the warnings. -/
def copyLoop (assign : Val → String → Val → Val) (keys : List String)
    (data : DataDict) (g : Val) : Val × List String :=
  keys.foldl (copyStep assign data) (g, [])

/-- Model of `PointCloudToGraphTransform._copy_node_keys_dgl`. -/
def _copy_node_keys_dgl (cfg : Cfg) (data : DataDict) (g : Val) : Val × List String :=
  copyLoop setNdata cfg.node_keys data g

/-- Model of `PointCloudToGraphTransform._copy_edge_keys_dgl`: python truthiness of
`edge_keys` guards the loop, so `None` and `[]` both do nothing. -/
def _copy_edge_keys_dgl (cfg : Cfg) (data : DataDict) (g : Val) : Val × List String :=
  match cfg.edge_keys with
  | none => (g, [])
  | some ks => if ks.isEmpty then (g, []) else copyLoop setEdata ks data g

/-- Model of `PointCloudToGraphTransform._copy_node_keys_pyg`. -/
def _copy_node_keys_pyg (cfg : Cfg) (data : DataDict) (g : Val) : Val × List String :=
  copyLoop setPAttr cfg.node_keys data g

/-- Model of `PointCloudToGraphTransform._copy_edge_keys_pyg`. -/
def _copy_edge_keys_pyg (cfg : Cfg) (data : DataDict) (g : Val) : Val × List String :=
  match cfg.edge_keys with
  | none => (g, [])
  | some ks => if ks.isEmpty then (g, []) else copyLoop setPAttr ks data g

/-- Model of `len(t)` on the masked labels tensor. -/
def pyLen : Val → Except String Nat
  | .ten (k :: _) _ => .ok k
  | .bm m => .ok m.length
  | _ => .error "TypeError: object has no len"

/-- Model of `PointCloudToGraphTransform._convert_dgl`, with the floating-point
distance kernel abstracted as `dk` (see `node_distances`). -/
def _convert_dgl (cfg : Cfg) (dk : List ℚ → List ℚ → ℚ) (data : DataDict) :
    Except String DataDict :=
  match get_atom_types data with
  | .error e => .error e
  | .ok atom_numbers0 =>
  match getV data "pos" with
  | none => .error "KeyError: pos"
  | some coords0 =>
  match _apply_mask atom_numbers0 coords0 data with
  | .error e => .error e
  | .ok (atom_numbers, coords) =>
  match pyLen atom_numbers with
  | .error e => .error e
  | .ok num_nodes =>
  match (if hasK data "distance_matrix" then .ok (getVD data "distance_matrix")
         else node_distances dk coords) with
  | .error e => .error e
  | .ok dist_mat =>
  match edges_from_dist dist_mat cfg.cutoff_dist with
  | .error e => .error e
  | .ok adj_list =>
      let g := dgl_graph adj_list num_nodes
      let g := setNdata g "atomic_numbers" atom_numbers
      let g := setNdata g "pos" coords
      .ok (setV data "graph" g)

/-- Model of `PointCloudToGraphTransform._convert_pyg`, with the floating-point
distance kernel abstracted as `dk`. Note the python guard
`edge_index.size(0) != 2 and edge_index.size(1) == 2` evaluates
`edge_index.size(1)` whenever `size(0) != 2`, including on the 1-D empty
tensor produced by an empty adjacency list. -/
def _convert_pyg (cfg : Cfg) (dk : List ℚ → List ℚ → ℚ) (data : DataDict) :
    Except String DataDict :=
  match get_atom_types data with
  | .error e => .error e
  | .ok atom_numbers0 =>
  match getV data "pos" with
  | none => .error "KeyError: pos"
  | some coords0 =>
  match _apply_mask atom_numbers0 coords0 data with
  | .error e => .error e
  | .ok (atom_numbers, coords) =>
  match (if hasK data "distance_matrix" then .ok (getVD data "distance_matrix")
         else node_distances dk coords) with
  | .error e => .error e
  | .ok dist_mat =>
  match edges_from_dist dist_mat cfg.cutoff_dist with
  | .error e => .error e
  | .ok adj_list =>
  let edge_index := longTensor adj_list
  match edge_index.size 0 with
  | .error e => .error e
  | .ok s0 =>
  match (if s0 ≠ 2 then
           match edge_index.size 1 with
           | .error e => (.error e : Except String LTen)
           | .ok s1 => .ok (if s1 = 2 then edge_index.transposeT else edge_index)
         else .ok edge_index) with
  | .error e => .error e
  | .ok ei =>
      let g := Val.gPyG ei.shape ei.rows [("pos", coords)]
      let g := setPAttr g "atomic_numbers" atom_numbers
      .ok (setV data "graph" g)

/-- Model of `RepresentationTransform.convert` dispatch: the DGL path when the
backend is `dgl`, otherwise the PyG path. -/
def convert (cfg : Cfg) (dk : List ℚ → List ℚ → ℚ) (data : DataDict) :
    Except String DataDict :=
  if cfg.backend = "dgl" then _convert_dgl cfg dk data else _convert_pyg cfg dk data

/-- Model of `PointCloudToGraphTransform.copy_node_keys` dispatch. -/
def copy_node_keys (cfg : Cfg) (data : DataDict) (g : Val) : Val × List String :=
  if cfg.backend = "dgl" then _copy_node_keys_dgl cfg data g
  else _copy_node_keys_pyg cfg data g

/-- Model of `PointCloudToGraphTransform.copy_edge_keys` dispatch. -/
def copy_edge_keys (cfg : Cfg) (data : DataDict) (g : Val) : Val × List String :=
  if cfg.backend = "dgl" then _copy_edge_keys_dgl cfg data g
  else _copy_edge_keys_pyg cfg data g

/-- Whether a stored value is graph-typed. Modelled from the spec:
`RepresentationTransform._check_for_type(data, GraphTypes)` is not among the
provided sources; the spec says the validator fails when the sample already
contains a graph-typed value. -/
def isGraphVal : Val → Bool
  | .gDGL _ _ _ _ => true
  | .gPyG _ _ _ => true
  | _ => false

def _check_for_type (data : DataDict) : Bool :=
  data.any (fun p => isGraphVal p.2)

/-- Model of `PointCloudToGraphTransform.prologue`: assert no graph-typed value is
already present, the `pos` key exists, and at least one of `atomic_numbers`
and `pc_features` exists. Raising is modelled as `Except.error`; on success
the sample is returned unmodified (the base-class `prologue` is a no-op per
the spec's no-side-effect contract). -/
def prologue (data : DataDict) : Except String DataDict :=
  if _check_for_type data then
    .error "Data structure already contains a graph: transform should not be required."
  else if ¬ hasK data "pos" then
    .error "No atomic positions pos key present in data sample."
  else if ¬ (hasK data "atomic_numbers" ∨ hasK data "pc_features") then
    .error "Neither atomic_numbers nor pc_features keys were present in data sample."
  else .ok data

/-- The point-cloud-only keys deleted by the epilogue. -/
def pcDropKeys : List String :=
  ["pos", "pc_features", "distance_matrix", "atomic_numbers",
   "src_nodes", "dst_nodes", "sizes"]

/-- Model of `PointCloudToGraphTransform.epilogue`: copy configured node and edge
attributes onto the graph, delete the point-cloud-only keys (missing ones
ignored), and for the DGL backend replace the graph by its bidirected form. -/
def epilogue (cfg : Cfg) (data : DataDict) : Except String DataDict :=
  match getV data "graph" with
  | none => .error "KeyError: graph"
  | some g =>
      let g := (copy_node_keys cfg data g).1
      let g := (copy_edge_keys cfg data g).1
      let data := setV data "graph" g
      let data := pcDropKeys.foldl delV data
      if cfg.backend = "dgl" then
        match to_bidirected (getVD data "graph") with
        | .error e => .error e
        | .ok g2 => .ok (setV data "graph" g2)
      else .ok data

/-- Modelled from the spec: the transform pipeline. The base-class
`__call__` of `RepresentationTransform` is not among the provided sources;
the spec fixes the control flow validator → conversion → finalizer. -/
def transform (cfg : Cfg) (dk : List ℚ → List ℚ → ℚ) (data : DataDict) :
    Except String DataDict :=
  match prologue data with
  | .error e => .error e
  | .ok d1 =>
      match convert cfg dk d1 with
      | .error e => .error e
      | .ok d2 => epilogue cfg d2

/-- C5: the prologue raises exactly when a graph-typed value is already
present, or `pos` is absent, or neither `atomic_numbers` nor `pc_features`
is present; on normal return the sample is unmodified. -/
theorem prologue_spec (data : DataDict) :
    (prologue data = Except.ok data ↔
      (_check_for_type data = false ∧ hasK data "pos" = true ∧
        (hasK data "atomic_numbers" = true ∨ hasK data "pc_features" = true)))
    ∧ ((prologue data).isOk = false ↔
      (_check_for_type data = true ∨ hasK data "pos" = false ∨
        (hasK data "atomic_numbers" = false ∧ hasK data "pc_features" = false)))
    ∧ (∀ d, prologue data = Except.ok d → d = data) := by
  cases hg : _check_for_type data <;>
    cases hp : hasK data "pos" <;>
      cases ha : hasK data "atomic_numbers" <;>
        cases hf : hasK data "pc_features" <;>
          simp [prologue, hg, hp, ha, hf, Except.isOk, Except.toBool]

/-- Witness for C5: a well-formed two-key sample passes the prologue
untouched. -/
theorem prologue_spec_witness :
    prologue [("pos", Val.ten [1, 3] [0, 0, 0]), ("atomic_numbers", Val.ten [1] [1])] =
      Except.ok [("pos", Val.ten [1, 3] [0, 0, 0]), ("atomic_numbers", Val.ten [1] [1])] :=
  (prologue_spec _).1.mpr (by refine ⟨by decide, by decide, Or.inl (by decide)⟩)

/-- C6: `get_atom_types` returns `atomic_numbers` unchanged when present;
otherwise, with `pc_features` present, it derives node types from the
feature block, fails with the count-mismatch assertion unless the derived
source-label count equals the position count, and returns the source
labels; with neither key present it raises a `KeyError`. -/
theorem get_atom_types_spec :
    (∀ data v, getV data "atomic_numbers" = some v →
      get_atom_types data = Except.ok v)
    ∧ (∀ data a b f d p ps pd,
        getV data "atomic_numbers" = none →
        getV data "pc_features" = some (Val.ten [a, b, f] d) →
        getV data "pos" = some (Val.ten (p :: ps) pd) →
        (retrieve_pointcloud_node_types (chunk3 b f d)).1.length = p →
        get_atom_types data =
          Except.ok (Val.ten [(retrieve_pointcloud_node_types (chunk3 b f d)).1.length]
            (retrieve_pointcloud_node_types (chunk3 b f d)).1))
    ∧ (∀ data a b f d p ps pd,
        getV data "atomic_numbers" = none →
        getV data "pc_features" = some (Val.ten [a, b, f] d) →
        getV data "pos" = some (Val.ten (p :: ps) pd) →
        (retrieve_pointcloud_node_types (chunk3 b f d)).1.length ≠ p →
        get_atom_types data =
          Except.error "Number of source nodes != number of atom positions!")
    ∧ (∀ data,
        getV data "atomic_numbers" = none →
        getV data "pc_features" = none →
        get_atom_types data =
          Except.error "KeyError: no suitable atom types to read from; expect either atomic_numbers or pc_features in the data sample") := by
  refine ⟨?_, ?_, ?_, ?_⟩
  · intro data v h
    simp [get_atom_types, hasK, h, getVD]
  · intro data a b f d p ps pd h1 h2 h3 hlen
    simp [get_atom_types, hasK, h1, h2, h3, hlen]
  · intro data a b f d p ps pd h1 h2 h3 hlen
    simp [get_atom_types, hasK, h1, h2, h3, hlen]
  · intro data h1 h2
    simp [get_atom_types, hasK, h1, h2]

/-- Witness for C6: the `atomic_numbers` branch at a one-key sample. -/
theorem get_atom_types_spec_witness :
    get_atom_types [("atomic_numbers", Val.ten [2] [1, 8])] =
      Except.ok (Val.ten [2] [1, 8]) :=
  get_atom_types_spec.1 [("atomic_numbers", Val.ten [2] [1, 8])]
    (Val.ten [2] [1, 8]) rfl

theorem chunkRows_length (m : Nat) (hm : 0 < m) (p : Nat) (d : List ℚ)
    (hd : d.length = p * m) : (chunkRows m d).length = p := by
  induction p generalizing d with
  | zero =>
      have hnil : d = [] := List.length_eq_zero.mp (by simpa using hd)
      subst hnil
      simp [chunkRows_nil]
  | succ p ih =>
      have hne : d ≠ [] := by
        intro hc
        subst hc
        simp at hd
        omega
      rw [chunkRows_eq, if_neg (by push_neg; exact ⟨by omega, hne⟩)]
      have hdrop : (d.drop m).length = p * m := by
        simp only [List.length_drop]
        rw [hd]
        ring_nf
        omega
      simp [ih (d.drop m) hdrop]

/-- C7: `_apply_mask` uses the sample's `src_mask` as the mask whenever
that key is present and otherwise the elementwise test `label > 0`; the
same mask indexes both the labels and the positions, so on success the two
returned tensors have equal leading dimensions. -/
theorem apply_mask_spec :
    (∀ an pos data m, getV data "src_mask" = some (Val.bm m) →
      _apply_mask an pos data = maskPair an pos m)
    ∧ (∀ an pos data n xs, getV data "src_mask" = none → an = Val.ten [n] xs →
      _apply_mask an pos data = maskPair an pos (xs.map (fun x => decide (0 < x))))
    ∧ (∀ m a p n xs pn pc ys,
        xs.length = n → ys.length = pn * pc → 0 < pc →
        maskPair (Val.ten [n] xs) (Val.ten [pn, pc] ys) m = Except.ok (a, p) →
        dim0 a = dim0 p) := by
  refine ⟨?_, ?_, ?_⟩
  · intro an pos data m h
    simp [_apply_mask, h]
  · intro an pos data n xs h han
    subst han
    simp [_apply_mask, h]
  · intro m a p n xs pn pc ys hxs hys hpc hok
    by_cases h1 : m.length = n
    · by_cases h2 : m.length = pn
      · have hrl : (chunkRows pc ys).length = pn := chunkRows_length pc hpc pn ys hys
        have hnp : n = pn := by omega
        simp only [maskPair, maskSelect, h1, h2, hnp, if_true, ite_self,
          if_pos] at hok
        rw [Except.ok.injEq, Prod.mk.injEq] at hok
        obtain ⟨ha, hp⟩ := hok
        rw [← ha, ← hp]
        simp only [dim0, Option.some.injEq]
        rw [keepTrue_length m xs (by omega),
          keepTrue_length m (chunkRows pc ys) (by omega)]
      · have hnp : ¬ n = pn := by omega
        simp [maskPair, maskSelect, h1, hnp] at hok
    · simp [maskPair, maskSelect, h1] at hok

/-- Witness for C7: the default positivity mask drops the padding atom and
the masked label and position tensors have the same leading dimension. -/
theorem apply_mask_spec_witness :
    (_apply_mask (Val.ten [2] [1, 0]) (Val.ten [2, 3] [0, 0, 0, 1, 1, 1]) [] =
      maskPair (Val.ten [2] [1, 0]) (Val.ten [2, 3] [0, 0, 0, 1, 1, 1])
        (([1, 0] : List ℚ).map (fun x => decide (0 < x))))
    ∧ (∀ a p,
        maskPair (Val.ten [2] [1, 0]) (Val.ten [2, 3] [0, 0, 0, 1, 1, 1])
          [true, false] = Except.ok (a, p) →
        dim0 a = dim0 p) :=
  ⟨apply_mask_spec.2.1 _ _ [] 2 [1, 0] rfl rfl,
    fun a p hok =>
      apply_mask_spec.2.2 [true, false] a p 2 [1, 0] 2 3 [0, 0, 0, 1, 1, 1]
        rfl rfl (by decide) hok⟩

/-- C8: `node_distances` accepts exactly 2-D coordinates with last
dimension 3 (raising the shape assertions otherwise) and returns the dense
`n × n` matrix of pairwise kernel values over the coordinate rows, where
the kernel abstracts the half-precision Euclidean `torch.cdist`; both
converters use a supplied `distance_matrix` instead of recomputing (the
result does not depend on the kernel), and `edges_from_dist` accepts a
numpy matrix by converting it to a tensor. -/
theorem node_distances_spec :
    (∀ dk n (d : List ℚ),
      node_distances dk (Val.ten [n, 3] d) =
        Except.ok (Val.ten [n, n]
          (((chunkRows 3 d).map (fun a =>
            (chunkRows 3 d).map (fun b => dk a b))).flatten)))
    ∧ (∀ dk s (d : List ℚ),
        (node_distances dk (Val.ten s d)).isOk = true ↔ ∃ n, s = [n, 3])
    ∧ (∀ cfg dk dk2 data, hasK data "distance_matrix" = true →
        _convert_dgl cfg dk data = _convert_dgl cfg dk2 data ∧
        _convert_pyg cfg dk data = _convert_pyg cfg dk2 data)
    ∧ (∀ s (d : List ℚ) c,
        edges_from_dist (Val.npA s d) c = edges_from_dist (Val.ten s d) c) := by
  refine ⟨?_, ?_, ?_, ?_⟩
  · intro dk n d
    rfl
  · intro dk s d
    rcases s with _ | ⟨a, _ | ⟨b, _ | ⟨c, rest⟩⟩⟩
    · simp [node_distances, Except.isOk, Except.toBool]
    · simp [node_distances, Except.isOk, Except.toBool]
    · by_cases hb : b = 3
      · subst hb
        constructor
        · intro _
          exact ⟨a, rfl⟩
        · intro _
          rfl
      · simp [node_distances, hb, Except.isOk, Except.toBool]
    · simp [node_distances, Except.isOk, Except.toBool]
  · intro cfg dk dk2 data h
    constructor
    · simp only [_convert_dgl, h, if_true]
    · simp only [_convert_pyg, h, if_true]
  · intro s d c
    rfl

/-- A trivial stand-in for the abstracted distance kernel, used to
instantiate theorems at concrete inputs. -/
def zeroKernel : List ℚ → List ℚ → ℚ := fun _ _ => 0

/-- A second kernel, used to exhibit kernel-independence. -/
def oneKernel : List ℚ → List ℚ → ℚ := fun _ _ => 1

/-- A DGL-backend configuration with the default node keys. -/
def dglCfg : Cfg := ⟨"dgl", 7, ["atomic_numbers", "force"], none⟩

/-- A PyG-backend configuration with the default node keys. -/
def pygCfg : Cfg := ⟨"pyg", 7, ["atomic_numbers", "force"], none⟩

/-- A sample holding a single isolated atom. -/
def oneAtomSample : DataDict :=
  [("pos", Val.ten [1, 3] [0, 0, 0]), ("atomic_numbers", Val.ten [1] [1])]

/-- The isolated-atom sample with a precomputed distance matrix. -/
def cachedSample : DataDict :=
  oneAtomSample ++ [("distance_matrix", Val.ten [1, 1] [0])]

/-- Witness for C8 at concrete inputs: a 1-atom coordinate tensor, a 3-D
tensor rejected by the shape assertion, the cached-distance sample, and a
numpy distance matrix. -/
theorem node_distances_spec_witness :
    (node_distances zeroKernel (Val.ten [1, 3] [0, 0, 0]) =
      Except.ok (Val.ten [1, 1]
        (((chunkRows 3 [0, 0, 0]).map (fun a =>
          (chunkRows 3 [0, 0, 0]).map (fun b => zeroKernel a b))).flatten)))
    ∧ ((node_distances zeroKernel (Val.ten [1, 3, 3] [])).isOk = true ↔
        ∃ n, [1, 3, 3] = [n, 3])
    ∧ (_convert_dgl dglCfg zeroKernel cachedSample =
        _convert_dgl dglCfg oneKernel cachedSample ∧
       _convert_pyg dglCfg zeroKernel cachedSample =
        _convert_pyg dglCfg oneKernel cachedSample)
    ∧ (edges_from_dist (Val.npA [1, 1] [0]) 5 = edges_from_dist (Val.ten [1, 1] [0]) 5) :=
  ⟨node_distances_spec.1 zeroKernel 1 [0, 0, 0],
   node_distances_spec.2.1 zeroKernel [1, 3, 3] [],
   node_distances_spec.2.2.1 dglCfg zeroKernel oneKernel cachedSample rfl,
   node_distances_spec.2.2.2 [1, 1] [0] 5⟩

/-- C2 (code bug): on a single isolated atom the derived edge list is
empty. The DGL materializer builds the expected 1-node, 0-edge graph, but
the PyG materializer raises: `torch.LongTensor([])` is a 1-D tensor of
shape `[0]`, its `size(0)` is `0 ≠ 2`, so the python `and` evaluates
`edge_index.size(1)`, which raises an IndexError on a 1-D tensor. -/
theorem convert_zero_edges_divergence :
    _convert_pyg pygCfg zeroKernel oneAtomSample =
      Except.error "IndexError: Dimension out of range"
    ∧ _convert_dgl dglCfg zeroKernel oneAtomSample =
      Except.ok (setV oneAtomSample "graph"
        (Val.gDGL 1 []
          [("atomic_numbers", Val.ten [1] [1]), ("pos", Val.ten [1, 3] [0, 0, 0])]
          [])) :=
  ⟨rfl, rfl⟩

theorem copyFold_warn_mono (assign : Val → String → Val → Val) (data : DataDict)
    (keys : List String) (acc : Val × List String) (x : String) (hx : x ∈ acc.2) :
    x ∈ (keys.foldl (copyStep assign data) acc).2 := by
  induction keys generalizing acc with
  | nil => simpa using hx
  | cons k keys ih =>
      rw [List.foldl_cons]
      cases hv : getV data k with
      | none =>
          refine ih (copyStep assign data acc k) ?_
          simp [copyStep, hv, hx]
      | some v =>
          refine ih (copyStep assign data acc k) ?_
          simpa [copyStep, hv] using hx

theorem copyFold_warns (assign : Val → String → Val → Val) (data : DataDict)
    (keys : List String) (acc : Val × List String) (key : String)
    (hk : key ∈ keys) (hmiss : getV data key = none) :
    missingMsg key ∈ (keys.foldl (copyStep assign data) acc).2 := by
  induction keys generalizing acc with
  | nil => cases hk
  | cons k keys ih =>
      rw [List.foldl_cons]
      rcases List.mem_cons.mp hk with rfl | hk2
      · refine copyFold_warn_mono assign data keys _ _ ?_
        simp [copyStep, hmiss]
      · exact ih (copyStep assign data acc k) hk2

theorem copyFold_stored_preserve {motive : Val → Prop}
    (assign : Val → String → Val → Val) (read : Val → String → Option Val)
    (hkeep : ∀ g k x, motive g → motive (assign g k x))
    (hread : ∀ g k k2 x, motive g →
      read (assign g k x) k2 = if k2 = k then some x else read g k2)
    (data : DataDict) (keys : List String) (acc : Val × List String)
    (key : String) (v : Val) (hm : motive acc.1)
    (hst : read acc.1 key = some v) (hv : getV data key = some v) :
    read (keys.foldl (copyStep assign data) acc).1 key = some v ∧
      motive (keys.foldl (copyStep assign data) acc).1 := by
  induction keys generalizing acc with
  | nil => exact ⟨hst, hm⟩
  | cons k keys ih =>
      rw [List.foldl_cons]
      cases hg : getV data k with
      | none =>
          refine ih (copyStep assign data acc k) ?_ ?_
          · simpa [copyStep, hg] using hm
          · simpa [copyStep, hg] using hst
      | some w =>
          have hstep : copyStep assign data acc k = (assign acc.1 k w, acc.2) := by
            simp [copyStep, hg]
          refine ih (copyStep assign data acc k) ?_ ?_
          · rw [hstep]
            exact hkeep _ _ _ hm
          · rw [hstep]
            show read (assign acc.1 k w) key = some v
            rw [hread _ _ _ _ hm]
            by_cases hkk : key = k
            · subst hkk
              rw [hv] at hg
              rw [if_pos rfl]
              exact congrArg some (Option.some.inj hg).symm
            · rw [if_neg hkk]
              exact hst

theorem copyFold_stored {motive : Val → Prop}
    (assign : Val → String → Val → Val) (read : Val → String → Option Val)
    (hkeep : ∀ g k x, motive g → motive (assign g k x))
    (hread : ∀ g k k2 x, motive g →
      read (assign g k x) k2 = if k2 = k then some x else read g k2)
    (data : DataDict) (keys : List String) (acc : Val × List String)
    (key : String) (v : Val) (hm : motive acc.1)
    (hk : key ∈ keys) (hv : getV data key = some v) :
    read (keys.foldl (copyStep assign data) acc).1 key = some v := by
  induction keys generalizing acc with
  | nil => cases hk
  | cons k keys ih =>
      rw [List.foldl_cons]
      rcases List.mem_cons.mp hk with rfl | hk2
      · have hstep : copyStep assign data acc key = (assign acc.1 key v, acc.2) := by
          simp [copyStep, hv]
        have hm2 : motive (copyStep assign data acc key).1 := by
          rw [hstep]; exact hkeep _ _ _ hm
        have hst2 : read (copyStep assign data acc key).1 key = some v := by
          rw [hstep]
          show read (assign acc.1 key v) key = some v
          rw [hread _ _ _ _ hm, if_pos rfl]
        exact (copyFold_stored_preserve assign read hkeep hread data keys _
          key v hm2 hst2 hv).1
      · cases hg : getV data k with
        | none =>
            refine ih (copyStep assign data acc k) ?_ hk2
            simpa [copyStep, hg] using hm
        | some w =>
            refine ih (copyStep assign data acc k) ?_ hk2
            have hstep : copyStep assign data acc k = (assign acc.1 k w, acc.2) := by
              simp [copyStep, hg]
            rw [hstep]
            exact hkeep _ _ _ hm

/-- Node-attribute lookup on a DGL graph value. -/
def ndataGet : Val → String → Option Val
  | .gDGL _ _ nd _, k => getV nd k
  | _, _ => none

/-- Attribute lookup on a PyG graph value. -/
def pyAttrGet : Val → String → Option Val
  | .gPyG _ _ ats, k => getV ats k
  | _, _ => none

theorem copyFold_skip {motive : Val → Prop}
    (assign : Val → String → Val → Val) (read : Val → String → Option Val)
    (hkeep : ∀ g k x, motive g → motive (assign g k x))
    (hread : ∀ g k k2 x, motive g →
      read (assign g k x) k2 = if k2 = k then some x else read g k2)
    (data : DataDict) (keys : List String) (acc : Val × List String)
    (key : String) (hm : motive acc.1) (hmiss : getV data key = none) :
    read (keys.foldl (copyStep assign data) acc).1 key = read acc.1 key := by
  induction keys generalizing acc with
  | nil => rfl
  | cons k keys ih =>
      rw [List.foldl_cons]
      cases hg : getV data k with
      | none =>
          have hgr : (copyStep assign data acc k).1 = acc.1 := by
            simp [copyStep, hg]
          rw [ih (copyStep assign data acc k) (by rw [hgr]; exact hm), hgr]
      | some w =>
          have hkk : ¬ key = k := by
            intro hc
            subst hc
            rw [hmiss] at hg
            cases hg
          have hgr : (copyStep assign data acc k).1 = assign acc.1 k w := by
            simp [copyStep, hg]
          have hm2 : motive (copyStep assign data acc k).1 := by
            rw [hgr]; exact hkeep _ _ _ hm
          rw [ih (copyStep assign data acc k) hm2, hgr,
            hread _ _ _ _ hm, if_neg hkk]

/-- The graph value is a DGL graph. -/
def isDGL (g : Val) : Prop := ∃ n es nd ed, g = Val.gDGL n es nd ed

/-- The graph value is a PyG graph. -/
def isPyG (g : Val) : Prop := ∃ s rs ats, g = Val.gPyG s rs ats

theorem setNdata_keeps_isDGL (g : Val) (k : String) (x : Val) (h : isDGL g) :
    isDGL (setNdata g k x) := by
  obtain ⟨n, es, nd, ed, rfl⟩ := h
  exact ⟨n, es, setV nd k x, ed, rfl⟩

theorem ndataGet_setNdata (g : Val) (k k2 : String) (x : Val) (h : isDGL g) :
    ndataGet (setNdata g k x) k2 = if k2 = k then some x else ndataGet g k2 := by
  obtain ⟨n, es, nd, ed, rfl⟩ := h
  show getV (setV nd k x) k2 = _
  rw [getV_setV]
  rfl

theorem setPAttr_keeps_isPyG (g : Val) (k : String) (x : Val) (h : isPyG g) :
    isPyG (setPAttr g k x) := by
  obtain ⟨s, rs, ats, rfl⟩ := h
  exact ⟨s, rs, setV ats k x, rfl⟩

theorem pyAttrGet_setPAttr (g : Val) (k k2 : String) (x : Val) (h : isPyG g) :
    pyAttrGet (setPAttr g k x) k2 = if k2 = k then some x else pyAttrGet g k2 := by
  obtain ⟨s, rs, ats, rfl⟩ := h
  show getV (setV ats k x) k2 = _
  rw [getV_setV]
  rfl

/-- C9: a configured node key absent from the sample emits a non-fatal
warning and is skipped (its attribute is untouched) while present keys are
still copied, in both backend copiers; edge-key copying with an unset or
empty edge-key configuration does nothing and emits no warning. -/
theorem copy_keys_spec :
    (∀ cfg data g key, key ∈ cfg.node_keys → hasK data key = false →
      missingMsg key ∈ (_copy_node_keys_dgl cfg data g).2 ∧
      missingMsg key ∈ (_copy_node_keys_pyg cfg data g).2)
    ∧ (∀ cfg data key v n es nd ed, key ∈ cfg.node_keys →
        getV data key = some v →
        ndataGet (_copy_node_keys_dgl cfg data (Val.gDGL n es nd ed)).1 key = some v)
    ∧ (∀ cfg data key v s rs ats, key ∈ cfg.node_keys →
        getV data key = some v →
        pyAttrGet (_copy_node_keys_pyg cfg data (Val.gPyG s rs ats)).1 key = some v)
    ∧ (∀ cfg data key n es nd ed, key ∈ cfg.node_keys → getV data key = none →
        ndataGet (_copy_node_keys_dgl cfg data (Val.gDGL n es nd ed)).1 key =
          getV nd key)
    ∧ (∀ cfg data g, cfg.edge_keys = none ∨ cfg.edge_keys = some [] →
        _copy_edge_keys_dgl cfg data g = (g, []) ∧
        _copy_edge_keys_pyg cfg data g = (g, [])) := by
  refine ⟨?_, ?_, ?_, ?_, ?_⟩
  · intro cfg data g key hk hmiss
    have hnone : getV data key = none := by
      rw [hasK] at hmiss
      exact Option.not_isSome_iff_eq_none.mp (by simp [hmiss])
    exact ⟨copyFold_warns setNdata data cfg.node_keys (g, []) key hk hnone,
      copyFold_warns setPAttr data cfg.node_keys (g, []) key hk hnone⟩
  · intro cfg data key v n es nd ed hk hv
    exact copyFold_stored setNdata ndataGet setNdata_keeps_isDGL ndataGet_setNdata
      data cfg.node_keys (Val.gDGL n es nd ed, []) key v ⟨n, es, nd, ed, rfl⟩ hk hv
  · intro cfg data key v s rs ats hk hv
    exact copyFold_stored setPAttr pyAttrGet setPAttr_keeps_isPyG pyAttrGet_setPAttr
      data cfg.node_keys (Val.gPyG s rs ats, []) key v ⟨s, rs, ats, rfl⟩ hk hv
  · intro cfg data key n es nd ed hk hmiss
    exact copyFold_skip setNdata ndataGet setNdata_keeps_isDGL ndataGet_setNdata
      data cfg.node_keys (Val.gDGL n es nd ed, []) key ⟨n, es, nd, ed, rfl⟩ hmiss
  · intro cfg data g h
    rcases h with h | h
    · constructor
      · simp [_copy_edge_keys_dgl, h]
      · simp [_copy_edge_keys_pyg, h]
    · constructor
      · simp [_copy_edge_keys_dgl, h]
      · simp [_copy_edge_keys_pyg, h]

/-- Witness for C9: with the default configuration on the isolated-atom
sample, the missing `force` key warns in both copiers and is skipped, the
present `atomic_numbers` key is copied in both, and the unset edge-key
configuration copies nothing. -/
theorem copy_keys_spec_witness :
    (missingMsg "force" ∈ (_copy_node_keys_dgl dglCfg oneAtomSample
        (Val.gDGL 1 [] [] [])).2 ∧
      missingMsg "force" ∈ (_copy_node_keys_pyg dglCfg oneAtomSample
        (Val.gDGL 1 [] [] [])).2)
    ∧ ndataGet (_copy_node_keys_dgl dglCfg oneAtomSample
        (Val.gDGL 1 [] [] [])).1 "atomic_numbers" = some (Val.ten [1] [1])
    ∧ pyAttrGet (_copy_node_keys_pyg dglCfg oneAtomSample
        (Val.gPyG [0] [] [])).1 "atomic_numbers" = some (Val.ten [1] [1])
    ∧ ndataGet (_copy_node_keys_dgl dglCfg oneAtomSample
        (Val.gDGL 1 [] [] [])).1 "force" = getV [] "force"
    ∧ (_copy_edge_keys_dgl dglCfg oneAtomSample (Val.gDGL 1 [] [] []) =
        (Val.gDGL 1 [] [] [], []) ∧
      _copy_edge_keys_pyg dglCfg oneAtomSample (Val.gDGL 1 [] [] []) =
        (Val.gDGL 1 [] [] [], [])) :=
  ⟨copy_keys_spec.1 dglCfg oneAtomSample (Val.gDGL 1 [] [] []) "force"
      (by decide) rfl,
    copy_keys_spec.2.1 dglCfg oneAtomSample "atomic_numbers" (Val.ten [1] [1])
      1 [] [] [] (by decide) rfl,
    copy_keys_spec.2.2.1 dglCfg oneAtomSample "atomic_numbers" (Val.ten [1] [1])
      [0] [] [] (by decide) rfl,
    copy_keys_spec.2.2.2.1 dglCfg oneAtomSample "force" 1 [] [] []
      (by decide) rfl,
    copy_keys_spec.2.2.2.2 dglCfg oneAtomSample (Val.gDGL 1 [] [] [])
      (Or.inl rfl)⟩

theorem copyFold_setNdata_skeleton (data : DataDict) (keys : List String)
    (acc : Val × List String) (n : Nat) (es : List (Nat × Nat))
    (nd ed : List (String × Val)) (h : acc.1 = Val.gDGL n es nd ed) :
    ∃ nd2, (keys.foldl (copyStep setNdata data) acc).1 = Val.gDGL n es nd2 ed := by
  induction keys generalizing acc nd with
  | nil => exact ⟨nd, h⟩
  | cons k keys ih =>
      rw [List.foldl_cons]
      cases hg : getV data k with
      | none =>
          refine ih (copyStep setNdata data acc k) nd ?_
          simp [copyStep, hg, h]
      | some w =>
          refine ih (copyStep setNdata data acc k) (setV nd k w) ?_
          simp [copyStep, hg, h, setNdata]

theorem copyFold_setEdata_skeleton (data : DataDict) (keys : List String)
    (acc : Val × List String) (n : Nat) (es : List (Nat × Nat))
    (nd ed : List (String × Val)) (h : acc.1 = Val.gDGL n es nd ed) :
    ∃ ed2, (keys.foldl (copyStep setEdata data) acc).1 = Val.gDGL n es nd ed2 := by
  induction keys generalizing acc ed with
  | nil => exact ⟨ed, h⟩
  | cons k keys ih =>
      rw [List.foldl_cons]
      cases hg : getV data k with
      | none =>
          refine ih (copyStep setEdata data acc k) ed ?_
          simp [copyStep, hg, h]
      | some w =>
          refine ih (copyStep setEdata data acc k) (setV ed k w) ?_
          simp [copyStep, hg, h, setEdata]

theorem copyFold_setPAttr_skeleton (data : DataDict) (keys : List String)
    (acc : Val × List String) (s : List Nat) (rs : List (List Nat))
    (ats : List (String × Val)) (h : acc.1 = Val.gPyG s rs ats) :
    ∃ ats2, (keys.foldl (copyStep setPAttr data) acc).1 = Val.gPyG s rs ats2 := by
  induction keys generalizing acc ats with
  | nil => exact ⟨ats, h⟩
  | cons k keys ih =>
      rw [List.foldl_cons]
      cases hg : getV data k with
      | none =>
          refine ih (copyStep setPAttr data acc k) ats ?_
          simp [copyStep, hg, h]
      | some w =>
          refine ih (copyStep setPAttr data acc k) (setV ats k w) ?_
          simp [copyStep, hg, h, setPAttr]

theorem getV_foldl_delV (ks : List String) (d : DataDict) (k : String) :
    getV (ks.foldl delV d) k = if k ∈ ks then none else getV d k := by
  induction ks generalizing d with
  | nil => simp
  | cons a ks ih =>
      rw [List.foldl_cons, ih]
      by_cases hk : k ∈ ks
      · simp [hk]
      · by_cases ha : k = a
        · simp [hk, ha, getV_delV]
        · simp [hk, ha, getV_delV]

theorem symEdges_symm (es : List (Nat × Nat)) (u v : Nat)
    (h : (u, v) ∈ symEdges es) : (v, u) ∈ symEdges es := by
  rw [symEdges, List.mem_dedup] at h ⊢
  rcases List.mem_append.mp h with h | h
  · refine List.mem_append.mpr (Or.inr ?_)
    exact List.mem_map.mpr ⟨(u, v), h, rfl⟩
  · obtain ⟨e, he, heq⟩ := List.mem_map.mp h
    refine List.mem_append.mpr (Or.inl ?_)
    obtain ⟨h1, h2⟩ := Prod.mk.injEq _ _ _ _ ▸ heq
    have : e = (v, u) := by
      cases e
      simp at h1 h2
      simp [h1, h2]
    rwa [this] at he

theorem getVD_after_drop (data : DataDict) (g : Val) :
    getVD (pcDropKeys.foldl delV (setV data "graph" g)) "graph" = g := by
  rw [getVD, getV_foldl_delV, if_neg (by decide), getV_setV, if_pos rfl]
  rfl

/-- The shape of `epilogue` on the DGL backend once the sample has a graph. -/
theorem epilogue_dgl_eq (cfg : Cfg) (data : DataDict) (g0 : Val)
    (hb : cfg.backend = "dgl") (hg0 : getV data "graph" = some g0) :
    epilogue cfg data =
      (match to_bidirected
          ((copy_edge_keys cfg data (copy_node_keys cfg data g0).1).1) with
       | .error e => .error e
       | .ok g3 => .ok (setV (pcDropKeys.foldl delV (setV data "graph"
           ((copy_edge_keys cfg data (copy_node_keys cfg data g0).1).1)))
           "graph" g3)) := by
  rw [epilogue, hg0]
  simp only [hb, if_true, getVD_after_drop]

/-- The shape of `epilogue` on a non-DGL backend once the sample has a
graph. -/
theorem epilogue_pyg_eq (cfg : Cfg) (data : DataDict) (g0 : Val)
    (hb : ¬ cfg.backend = "dgl") (hg0 : getV data "graph" = some g0) :
    epilogue cfg data =
      .ok (pcDropKeys.foldl delV (setV data "graph"
        ((copy_edge_keys cfg data (copy_node_keys cfg data g0).1).1))) := by
  rw [epilogue, hg0]
  simp only [hb, if_false]

theorem copy_node_keys_dgl_eq (cfg : Cfg) (data : DataDict) (g : Val)
    (hb : cfg.backend = "dgl") :
    copy_node_keys cfg data g = _copy_node_keys_dgl cfg data g := by
  simp [copy_node_keys, hb]

theorem copy_edge_keys_dgl_eq (cfg : Cfg) (data : DataDict) (g : Val)
    (hb : cfg.backend = "dgl") :
    copy_edge_keys cfg data g = _copy_edge_keys_dgl cfg data g := by
  simp [copy_edge_keys, hb]

theorem copy_node_keys_pyg_eq (cfg : Cfg) (data : DataDict) (g : Val)
    (hb : ¬ cfg.backend = "dgl") :
    copy_node_keys cfg data g = _copy_node_keys_pyg cfg data g := by
  simp [copy_node_keys, hb]

theorem copy_edge_keys_pyg_eq (cfg : Cfg) (data : DataDict) (g : Val)
    (hb : ¬ cfg.backend = "dgl") :
    copy_edge_keys cfg data g = _copy_edge_keys_pyg cfg data g := by
  simp [copy_edge_keys, hb]

theorem copy_edge_keys_dgl_skeleton (cfg : Cfg) (data : DataDict) (n : Nat)
    (es : List (Nat × Nat)) (nd ed : List (String × Val)) :
    ∃ ed2, (_copy_edge_keys_dgl cfg data (Val.gDGL n es nd ed)).1 =
      Val.gDGL n es nd ed2 := by
  rw [_copy_edge_keys_dgl]
  cases he : cfg.edge_keys with
  | none => exact ⟨ed, rfl⟩
  | some ks =>
      cases hks : ks.isEmpty
      · simp only [hks, Bool.false_eq_true, if_false]
        exact copyFold_setEdata_skeleton data ks (Val.gDGL n es nd ed, [])
          n es nd ed rfl
      · simp only [hks, if_true]
        exact ⟨ed, rfl⟩

theorem copy_edge_keys_pyg_skeleton (cfg : Cfg) (data : DataDict) (s : List Nat)
    (rs : List (List Nat)) (ats : List (String × Val)) :
    ∃ ats2, (_copy_edge_keys_pyg cfg data (Val.gPyG s rs ats)).1 =
      Val.gPyG s rs ats2 := by
  rw [_copy_edge_keys_pyg]
  cases he : cfg.edge_keys with
  | none => exact ⟨ats, rfl⟩
  | some ks =>
      cases hks : ks.isEmpty
      · simp only [hks, Bool.false_eq_true, if_false]
        exact copyFold_setPAttr_skeleton data ks (Val.gPyG s rs ats, [])
          s rs ats rfl
      · simp only [hks, if_true]
        exact ⟨ats, rfl⟩

/-- C3: after the DGL-backend epilogue every directed edge of the stored
graph has its reverse present; the PyG-backend epilogue leaves the graph
with the single-direction edge index produced by the adjacency engine. -/
theorem epilogue_edges_spec :
    (∀ cfg data d2 n es nd ed, cfg.backend = "dgl" →
      epilogue cfg data = Except.ok d2 →
      getV d2 "graph" = some (Val.gDGL n es nd ed) →
      ∀ u v, (u, v) ∈ es → (v, u) ∈ es)
    ∧ (∀ cfg data d2 s rs ats, cfg.backend = "pyg" →
      getV data "graph" = some (Val.gPyG s rs ats) →
      epilogue cfg data = Except.ok d2 →
      ∃ ats2, getV d2 "graph" = some (Val.gPyG s rs ats2)) := by
  constructor
  · intro cfg data d2 n es nd ed hb hep hget u v huv
    cases hg0 : getV data "graph" with
    | none => rw [epilogue, hg0] at hep; cases hep
    | some g0 =>
        rw [epilogue_dgl_eq cfg data g0 hb hg0] at hep
        generalize hg2 :
          (copy_edge_keys cfg data (copy_node_keys cfg data g0).1).1 = g2 at hep
        cases g2 with
        | ten s dd => simp [to_bidirected] at hep
        | npA s dd => simp [to_bidirected] at hep
        | bm m => simp [to_bidirected] at hep
        | gPyG s rs ats => simp [to_bidirected] at hep
        | gDGL m es0 nd0 ed0 =>
            simp only [to_bidirected] at hep
            cases hep
            rw [getV_setV, if_pos rfl] at hget
            simp only [Option.some.injEq, Val.gDGL.injEq] at hget
            obtain ⟨hm, hes, hnd, hed⟩ := hget
            rw [← hes] at huv ⊢
            exact symEdges_symm es0 u v huv
  · intro cfg data d2 s rs ats hb hg0 hep
    have hbne : ¬ cfg.backend = "dgl" := by
      rw [hb]
      decide
    rw [epilogue_pyg_eq cfg data _ hbne hg0] at hep
    have hd2 := Except.ok.inj hep
    obtain ⟨ats1, hnk⟩ :
        ∃ ats1, (copy_node_keys cfg data (Val.gPyG s rs ats)).1 =
          Val.gPyG s rs ats1 := by
      rw [copy_node_keys_pyg_eq cfg data _ hbne]
      exact copyFold_setPAttr_skeleton data cfg.node_keys
        (Val.gPyG s rs ats, []) s rs ats rfl
    obtain ⟨ats2, hek⟩ :
        ∃ ats2, (copy_edge_keys cfg data (Val.gPyG s rs ats1)).1 =
          Val.gPyG s rs ats2 := by
      rw [copy_edge_keys_pyg_eq cfg data _ hbne]
      exact copy_edge_keys_pyg_skeleton cfg data s rs ats1
    refine ⟨ats2, ?_⟩
    rw [← hd2, getV_foldl_delV, if_neg (by decide), getV_setV, if_pos rfl,
      hnk, hek]

/-- Witness for C3: a two-node DGL graph with one directed edge gains the
reverse edge through the epilogue; a PyG graph keeps its edge index. -/
theorem epilogue_edges_spec_witness :
    (1, 0) ∈ symEdges [(1, 0)]
    ∧ ∃ ats2, getV [("graph", Val.gPyG [2, 1] [[1], [0]]
        [("pos", Val.ten [1, 3] [0, 0, 0])])] "graph" =
      some (Val.gPyG [2, 1] [[1], [0]] ats2) :=
  ⟨epilogue_edges_spec.1 dglCfg [("graph", Val.gDGL 2 [(1, 0)] [] [])]
      [("graph", Val.gDGL 2 (symEdges [(1, 0)]) [] [])]
      2 (symEdges [(1, 0)]) [] [] rfl rfl rfl 0 1 (by decide),
    epilogue_edges_spec.2 pygCfg
      [("graph", Val.gPyG [2, 1] [[1], [0]] [("pos", Val.ten [1, 3] [0, 0, 0])])]
      [("graph", Val.gPyG [2, 1] [[1], [0]] [("pos", Val.ten [1, 3] [0, 0, 0])])]
      [2, 1] [[1], [0]] [("pos", Val.ten [1, 3] [0, 0, 0])] rfl rfl rfl⟩

theorem prologue_ok (data d : DataDict) (h : prologue data = Except.ok d) :
    d = data ∧ _check_for_type data = false := by
  rw [prologue] at h
  split_ifs at h with h1 h2 h3
  refine ⟨(Except.ok.inj h).symm, ?_⟩
  simpa using h1

theorem _convert_dgl_sets_graph (cfg : Cfg) (dk : List ℚ → List ℚ → ℚ)
    (data d1 : DataDict) (h : _convert_dgl cfg dk data = Except.ok d1) :
    ∃ g, d1 = setV data "graph" g := by
  rw [_convert_dgl] at h
  repeat' split at h
  all_goals try (dsimp only at h)
  all_goals cases h
  all_goals exact ⟨_, rfl⟩

theorem _convert_pyg_sets_graph (cfg : Cfg) (dk : List ℚ → List ℚ → ℚ)
    (data d1 : DataDict) (h : _convert_pyg cfg dk data = Except.ok d1) :
    ∃ g, d1 = setV data "graph" g := by
  rw [_convert_pyg] at h
  repeat' split at h
  all_goals try (dsimp only at h)
  all_goals repeat' split at h
  all_goals cases h
  all_goals exact ⟨_, rfl⟩

theorem convert_sets_graph (cfg : Cfg) (dk : List ℚ → List ℚ → ℚ)
    (data d1 : DataDict) (h : convert cfg dk data = Except.ok d1) :
    ∃ g, d1 = setV data "graph" g := by
  rw [convert] at h
  by_cases hb : cfg.backend = "dgl"
  · rw [if_pos hb] at h
    exact _convert_dgl_sets_graph cfg dk data d1 h
  · rw [if_neg hb] at h
    exact _convert_pyg_sets_graph cfg dk data d1 h

theorem pcDropKeys_ne_graph : ∀ k ∈ pcDropKeys, k ≠ "graph" := by decide

theorem epilogue_frame (cfg : Cfg) (data d2 : DataDict)
    (h : epilogue cfg data = Except.ok d2) :
    hasK d2 "graph" = true
    ∧ (∀ k, k ∈ pcDropKeys → hasK d2 k = false)
    ∧ (∀ k, k ∉ pcDropKeys → k ≠ "graph" → getV d2 k = getV data k) := by
  cases hg0 : getV data "graph" with
  | none => rw [epilogue, hg0] at h; cases h
  | some g0 =>
      by_cases hb : cfg.backend = "dgl"
      · rw [epilogue_dgl_eq cfg data g0 hb hg0] at h
        generalize hg2 :
          (copy_edge_keys cfg data (copy_node_keys cfg data g0).1).1 = g2 at h
        cases htb : to_bidirected g2 with
        | error e => rw [htb] at h; cases h
        | ok g3 =>
            rw [htb] at h
            cases h
            refine ⟨?_, ?_, ?_⟩
            · rw [hasK, getV_setV, if_pos rfl]
              rfl
            · intro k hk
              rw [hasK, getV_setV, if_neg (pcDropKeys_ne_graph k hk),
                getV_foldl_delV, if_pos hk]
              rfl
            · intro k hnp hng
              rw [getV_setV, if_neg hng, getV_foldl_delV, if_neg hnp,
                getV_setV, if_neg hng]
      · rw [epilogue_pyg_eq cfg data g0 hb hg0] at h
        cases h
        refine ⟨?_, ?_, ?_⟩
        · rw [hasK, getV_foldl_delV, if_neg (by decide), getV_setV, if_pos rfl]
          rfl
        · intro k hk
          rw [hasK, getV_foldl_delV, if_pos hk]
          rfl
        · intro k hnp hng
          rw [getV_foldl_delV, if_neg hnp, getV_setV, if_neg hng]

/-- C4 (amended): whenever the transform completes, the `graph` key is
present; beforehand no graph-typed value was stored under any key (though a
non-graph value may have sat under the `graph` key itself); each
point-cloud-only key is absent afterwards (prior absence being ignored);
and every other key is unchanged. -/
theorem transform_frame (cfg : Cfg) (dk : List ℚ → List ℚ → ℚ)
    (data d2 : DataDict) (h : transform cfg dk data = Except.ok d2) :
    hasK d2 "graph" = true
    ∧ _check_for_type data = false
    ∧ (∀ k, k ∈ pcDropKeys → hasK d2 k = false)
    ∧ (∀ k, k ∉ pcDropKeys → k ≠ "graph" → getV d2 k = getV data k) := by
  rw [transform] at h
  split at h
  · cases h
  · rename_i d1 hp
    obtain ⟨hd1, hcheck⟩ := prologue_ok data d1 hp
    subst hd1
    split at h
    · cases h
    · rename_i d1' hc
      obtain ⟨g, hd1'⟩ := convert_sets_graph cfg dk d1 d1' hc
      obtain ⟨hgr, hpc, hframe⟩ := epilogue_frame cfg d1' d2 h
      refine ⟨hgr, hcheck, hpc, ?_⟩
      intro k hnp hng
      rw [hframe k hnp hng, hd1', getV_setV, if_neg hng]

/-- Counterexample for the claim's parenthetical in C4: the prologue only
rejects graph-typed values, so a sample with a plain tensor stored under the
`graph` key completes the transform although `graph` was present
beforehand. -/
theorem transform_graph_key_present_before :
    (transform dglCfg zeroKernel
      (("graph", Val.ten [1] [5]) :: oneAtomSample)).isOk = true
    ∧ hasK (("graph", Val.ten [1] [5]) :: oneAtomSample) "graph" = true :=
  ⟨rfl, rfl⟩

/-- Witness for the amended C4 at the isolated-atom sample. -/
theorem transform_frame_witness :
    hasK [("graph", Val.gDGL 1 []
      [("pos", Val.ten [1, 3] [0, 0, 0]),
       ("atomic_numbers", Val.ten [1] [1])] [])] "graph" = true
    ∧ _check_for_type oneAtomSample = false
    ∧ (∀ k, k ∈ pcDropKeys →
        hasK [("graph", Val.gDGL 1 []
          [("pos", Val.ten [1, 3] [0, 0, 0]),
           ("atomic_numbers", Val.ten [1] [1])] [])] k = false)
    ∧ (∀ k, k ∉ pcDropKeys → k ≠ "graph" →
        getV [("graph", Val.gDGL 1 []
          [("pos", Val.ten [1, 3] [0, 0, 0]),
           ("atomic_numbers", Val.ten [1] [1])] [])] k = getV oneAtomSample k) :=
  transform_frame dglCfg zeroKernel oneAtomSample
    [("graph", Val.gDGL 1 []
      [("pos", Val.ten [1, 3] [0, 0, 0]),
       ("atomic_numbers", Val.ten [1] [1])] [])] rfl

/-- Model of DGL's `graph.ndata[key] = v` including the library's
validation: DGL checks that the leading dimension of the assigned value
equals the graph's node count and raises a `DGLError` otherwise (a
different exception class from `KeyError`, so the copy loop's handler does
not catch it). -/
def ndata_set_validated (g : Val) (k : String) (v : Val) : Except String Val :=
  match g with
  | .gDGL n es nd ed =>
      if dim0 v = some n then .ok (.gDGL n es (setV nd k v) ed)
      else .error "DGLError: expect number of features to match number of nodes"
  | _ => .error "TypeError: ndata expects a DGLGraph"

/-- Model of DGL's `graph.edata[key] = v` including the library's
validation against the edge count. -/
def edata_set_validated (g : Val) (k : String) (v : Val) : Except String Val :=
  match g with
  | .gDGL n es nd ed =>
      if dim0 v = some es.length then .ok (.gDGL n es nd (setV ed k v))
      else .error "DGLError: expect number of features to match number of edges"
  | _ => .error "TypeError: edata expects a DGLGraph"

/-- The `_copy_node_keys_dgl` loop with DGL's ndata validation: for each
configured key, `try: graph.ndata[key] = data[key] except KeyError` warns
and skips a missing sample key, while a `DGLError` from the assignment
propagates and aborts the loop. -/
def copyNodesV (data : DataDict) :
    List String → Val × List String → Except String (Val × List String)
  | [], acc => .ok acc
  | key :: keys, acc =>
      match getV data key with
      | some v =>
          match ndata_set_validated acc.1 key v with
          | .ok g => copyNodesV data keys (g, acc.2)
          | .error e => .error e
      | none => copyNodesV data keys (acc.1, acc.2 ++ [missingMsg key])

/-- The `_copy_edge_keys_dgl` loop with DGL's edata validation. -/
def copyEdgesV (data : DataDict) :
    List String → Val × List String → Except String (Val × List String)
  | [], acc => .ok acc
  | key :: keys, acc =>
      match getV data key with
      | some v =>
          match edata_set_validated acc.1 key v with
          | .ok g => copyEdgesV data keys (g, acc.2)
          | .error e => .error e
      | none => copyEdgesV data keys (acc.1, acc.2 ++ [missingMsg key])

/-- `_copy_node_keys_dgl` with the library validation modeled. -/
def _copy_node_keys_dgl_validated (cfg : Cfg) (data : DataDict) (g : Val) :
    Except String (Val × List String) :=
  copyNodesV data cfg.node_keys (g, [])

/-- `_copy_edge_keys_dgl` with the library validation modeled (python
truthiness of `edge_keys` still guards the loop). -/
def _copy_edge_keys_dgl_validated (cfg : Cfg) (data : DataDict) (g : Val) :
    Except String (Val × List String) :=
  match cfg.edge_keys with
  | none => .ok (g, [])
  | some ks => if ks.isEmpty then .ok (g, []) else copyEdgesV data ks (g, [])

/-- `PointCloudToGraphTransform.epilogue` with the DGL library's
feature-length validation modeled on the attribute assignments; the PyG
path stores via plain `setattr`, which performs no validation, and is
unchanged from `epilogue`. -/
def epilogue_validated (cfg : Cfg) (data : DataDict) : Except String DataDict :=
  match getV data "graph" with
  | none => .error "KeyError: graph"
  | some g =>
  match (if cfg.backend = "dgl" then _copy_node_keys_dgl_validated cfg data g
         else .ok (_copy_node_keys_pyg cfg data g)) with
  | .error e => .error e
  | .ok (g, _nwarns) =>
  match (if cfg.backend = "dgl" then _copy_edge_keys_dgl_validated cfg data g
         else .ok (_copy_edge_keys_pyg cfg data g)) with
  | .error e => .error e
  | .ok (g, _ewarns) =>
      let data := setV data "graph" g
      let data := pcDropKeys.foldl delV data
      if cfg.backend = "dgl" then
        match to_bidirected (getVD data "graph") with
        | .error e => .error e
        | .ok g2 => .ok (setV data "graph" g2)
      else .ok data

theorem ndata_set_validated_ok (k' : Nat) (es : List (Nat × Nat))
    (nd ed : List (String × Val)) (kk : String) (w g' : Val)
    (h : ndata_set_validated (Val.gDGL k' es nd ed) kk w = Except.ok g') :
    ∃ nd2, g' = Val.gDGL k' es nd2 ed := by
  rw [ndata_set_validated] at h
  by_cases hd : dim0 w = some k'
  · rw [if_pos hd] at h
    exact ⟨setV nd kk w, (Except.ok.inj h).symm⟩
  · rw [if_neg hd] at h
    cases h

theorem copyNodesV_err (data : DataDict) (keys : List String) (k' n : Nat)
    (key : String) (v : Val)
    (hk : key ∈ keys) (hv : getV data key = some v) (hd : dim0 v = some n)
    (hne : n ≠ k') :
    ∀ es nd ed ws, ∃ msg,
      copyNodesV data keys (Val.gDGL k' es nd ed, ws) = Except.error msg := by
  induction keys with
  | nil => cases hk
  | cons kk keys ih =>
      intro es nd ed ws
      by_cases hkk : kk = key
      · subst hkk
        have hset : ndata_set_validated (Val.gDGL k' es nd ed) kk v =
            Except.error
              "DGLError: expect number of features to match number of nodes" := by
          rw [ndata_set_validated, if_neg]
          intro hc
          rw [hd] at hc
          exact hne (Option.some.inj hc)
        exact ⟨"DGLError: expect number of features to match number of nodes",
          by simp only [copyNodesV, hv, hset]⟩
      · have hk2 : key ∈ keys := by
          rcases List.mem_cons.mp hk with h | h
          · exact absurd h.symm hkk
          · exact h
        cases hg : getV data kk with
        | none =>
            obtain ⟨msg, hmsg⟩ := ih hk2 es nd ed (ws ++ [missingMsg kk])
            exact ⟨msg, by simp only [copyNodesV, hg]; exact hmsg⟩
        | some w =>
            cases hset : ndata_set_validated (Val.gDGL k' es nd ed) kk w with
            | error e => exact ⟨e, by simp only [copyNodesV, hg, hset]⟩
            | ok g' =>
                obtain ⟨nd2, rfl⟩ :=
                  ndata_set_validated_ok k' es nd ed kk w g' hset
                obtain ⟨msg, hmsg⟩ := ih hk2 es nd2 ed ws
                exact ⟨msg, by simp only [copyNodesV, hg, hset]; exact hmsg⟩

/-- C10 (amended): the DGL finalizer runs the attribute copier before
deleting the point-cloud keys, and the copier attempts to assign the
sample's original, unmasked tensor for each configured node key still
present in the sample; hence whenever the mask removed at least one atom
(unmasked length `n` differs from the node count `k`) and `atomic_numbers`
is among the configured node keys, the assignment's DGL feature-length
validation fails, raising a `DGLError` that the `KeyError` handler does
not catch, so the epilogue aborts instead of replacing the masked
per-node attribute. -/
theorem epilogue_validated_unmasked_aborts (cfg : Cfg) (data : DataDict)
    (k n : Nat) (es : List (Nat × Nat)) (nd ed : List (String × Val))
    (xs : List ℚ)
    (hb : cfg.backend = "dgl")
    (hkey : "atomic_numbers" ∈ cfg.node_keys)
    (hg : getV data "graph" = some (Val.gDGL k es nd ed))
    (han : getV data "atomic_numbers" = some (Val.ten [n] xs))
    (hkn : k ≠ n) :
    (∃ msg, epilogue_validated cfg data = Except.error msg)
    ∧ ∀ d2, epilogue_validated cfg data ≠ Except.ok d2 := by
  have hd0 : dim0 (Val.ten [n] xs) = some n := rfl
  obtain ⟨msg, hmsg⟩ := copyNodesV_err data cfg.node_keys k n "atomic_numbers"
    (Val.ten [n] xs) hkey han hd0 (fun hc => hkn hc.symm) es nd ed []
  have hepi : epilogue_validated cfg data = Except.error msg := by
    rw [epilogue_validated, hg]
    simp only [hb, if_true, _copy_node_keys_dgl_validated, hmsg]
  refine ⟨⟨msg, hepi⟩, ?_⟩
  intro d2 hc
  rw [hepi] at hc
  cases hc

/-- A sample whose graph was built from one retained atom while the
unmasked `atomic_numbers` still has two entries. -/
def maskedSample : DataDict :=
  [("graph", Val.gDGL 1 [] [("atomic_numbers", Val.ten [1] [5])] []),
   ("atomic_numbers", Val.ten [2] [5, 0]),
   ("pos", Val.ten [2, 3] [0, 0, 0, 1, 1, 1])]

/-- Counterexample for C10 as originally stated: with DGL's feature-length
validation modeled, the copier's assignment of the unmasked 2-long
`atomic_numbers` tensor onto the 1-node graph raises a `DGLError`, so the
epilogue aborts; no graph with the unmasked-length attribute is ever
produced and the masked attribute is never replaced. -/
theorem epilogue_validated_masked_counterexample :
    epilogue_validated dglCfg maskedSample =
      Except.error "DGLError: expect number of features to match number of nodes" :=
  rfl

/-- Witness for the amended C10 at the concrete masked sample. -/
theorem epilogue_validated_unmasked_aborts_witness :
    (∃ msg, epilogue_validated dglCfg maskedSample = Except.error msg)
    ∧ ∀ d2, epilogue_validated dglCfg maskedSample ≠ Except.ok d2 :=
  epilogue_validated_unmasked_aborts dglCfg maskedSample 1 2 []
    [("atomic_numbers", Val.ten [1] [5])] [] [5, 0]
    rfl (by decide) rfl rfl (by decide)
